import Mathlib

/-!
Verification model of the tenable-cribl-collector repository.

The definitions below are a shallow embedding of the Python sources:

* `src/checkpoint_manager.py` (`FileCheckpoint`): per-key checkpoint records
  with an insertion-ordered id→observation-time index (a Python `dict` is
  modelled as an association list with unique keys kept in insertion order),
  retention-based expiry, size-capped eviction on flush, and batched adds.
* `src/feeds/assets.py` (`_safe_export_with_retry`, `DeletedAssetProcessor`):
  the export retry wrapper and the full-snapshot deletion diff.
* `src/feeds/base.py` (`BaseFeedProcessor.flush_events`): event buffering and
  the partial-success checkpoint marking.
* `src/http_event_collector.py` (`http_event_collector.flushBatch`): the
  adaptive pacing state machine.  Python floats are modelled as rationals;
  the multiplicative update/clamp logic is otherwise verbatim.

Wall-clock reads (`time.time()`) are modelled by an explicit `now : Int`
parameter at each call that reads the clock.  File IO is modelled by its
outcome (`LoadOutcome`); sleeping/backoff durations are not modelled, only
the retry decisions that surround them.
-/

namespace Collector

/-- Python values that appear as item ids in this code base (asset UUID
strings, integer ids).  `str(item_id)` is modelled by `pyStr`. -/
inductive PyVal where
  | pvInt (n : Int)
  | pvStr (s : String)
deriving DecidableEq, Repr

/-- Python `str()` on an item id, as used by `FileCheckpoint` when keying
`id_tracking` (`str(item_id)` in `add_processed_id`, `is_processed`, ...). -/
def pyStr : PyVal → String
  | .pvInt n => toString n
  | .pvStr s => s

/-- Configuration of `FileCheckpoint` (`max_ids`, `retention_days * 86400`,
`flush_interval`). -/
structure CheckpointConfig where
  maxIds : Nat
  retentionSeconds : Int
  flushInterval : Nat
deriving Repr

/-- In-memory cached record for one checkpoint key: the `id_tracking` dict
(insertion-ordered association list, unique keys), `last_timestamp`, and the
key's `_pending_count`. -/
structure CheckpointRecord where
  idTracking : List (String × Int)
  lastTimestamp : Option Int
  pending : Nat
deriving DecidableEq, Repr

/-- The empty default record built at the top of `_load_checkpoint`. -/
def defaultRecord : CheckpointRecord :=
  { idTracking := [], lastTimestamp := none, pending := 0 }

/-- Python dict assignment `d[k] = t`: update the value in place if the key
is present (keeping its position), otherwise append at the end. -/
def trackInsert : List (String × Int) → String → Int → List (String × Int)
  | [], k, t => [(k, t)]
  | (k', t') :: rest, k, t =>
      if k' = k then (k', t) :: rest else (k', t') :: trackInsert rest k t

/-- Python dict lookup `d.get(k)` on the id index. -/
def trackFind : List (String × Int) → String → Option Int
  | [], _ => none
  | (k', t) :: rest, k => if k' = k then some t else trackFind rest k

/-- Insert one entry into a list already sorted by observation time in
descending order, after every entry of greater-or-equal time (so that the
overall sort is stable, like Python's `sorted`). -/
def insertByTsDesc (x : String × Int) : List (String × Int) → List (String × Int)
  | [] => [x]
  | y :: ys => if x.2 ≤ y.2 then y :: insertByTsDesc x ys else x :: y :: ys

/-- Stable sort by observation time, descending: the model of
`sorted(id_tracking.items(), key=lambda x: x[1], reverse=True)`. -/
def sortByTsDesc (l : List (String × Int)) : List (String × Int) :=
  l.foldl (fun acc x => insertByTsDesc x acc) []

/-- In-memory effect of `FileCheckpoint.flush` on one key's record: drop
entries at or past the retention cutoff (`ts > cutoff` is kept), then if the
index still exceeds `max_ids` keep the `max_ids` entries of most recent
observation time, and reset the pending-write counter. -/
def flushRecord (cfg : CheckpointConfig) (now : Int) (r : CheckpointRecord) :
    CheckpointRecord :=
  let cutoff := now - cfg.retentionSeconds
  let purged := r.idTracking.filter (fun p => cutoff < p.2)
  let trimmed :=
    if cfg.maxIds < purged.length then (sortByTsDesc purged).take cfg.maxIds
    else purged
  { r with idTracking := trimmed, pending := 0 }

/-- Model of `FileCheckpoint.add_processed_id`: record the id (keyed by its
`str()`) at the current time, bump the pending count, and auto-flush once
`flush_interval` pending adds have accumulated. -/
def addProcessedId (cfg : CheckpointConfig) (now : Int) (r : CheckpointRecord)
    (itemId : PyVal) : CheckpointRecord :=
  let r' := { r with idTracking := trackInsert r.idTracking (pyStr itemId) now,
                     pending := r.pending + 1 }
  if cfg.flushInterval ≤ r'.pending then flushRecord cfg now r' else r'

/-- Model of `FileCheckpoint.add_processed_ids_batch`: every id of the batch
is written with the same `current_time = int(time.time())`, then the key is
always flushed. -/
def addProcessedIdsBatch (cfg : CheckpointConfig) (now : Int)
    (r : CheckpointRecord) (itemIds : List PyVal) : CheckpointRecord :=
  if itemIds.isEmpty then r
  else
    let r' := { r with
      idTracking := itemIds.foldl (fun m i => trackInsert m (pyStr i) now) r.idTracking,
      pending := r.pending + itemIds.length }
    flushRecord cfg now r'

/-- Model of `FileCheckpoint.is_processed`: the id's `str()` must be present
in the index with an observation time strictly inside the retention window. -/
def isProcessed (cfg : CheckpointConfig) (now : Int) (r : CheckpointRecord)
    (itemId : PyVal) : Bool :=
  match trackFind r.idTracking (pyStr itemId) with
  | none => false
  | some ts => decide (now - cfg.retentionSeconds < ts)

/-- Model of `FileCheckpoint.get_processed_ids`: the set of non-expired ids
(returned here as the list of keys in index order; the Python code returns
them as a set). -/
def getProcessedIds (cfg : CheckpointConfig) (now : Int)
    (r : CheckpointRecord) : List String :=
  (r.idTracking.filter (fun p => now - cfg.retentionSeconds < p.2)).map Prod.fst

/-- Outcome of the file read attempted by `_load_checkpoint`: the file may be
missing, opening/parsing may raise, the file may parse to the current format,
or to the legacy `processed_ids` format that is migrated on load. -/
inductive LoadOutcome where
  | missing
  | readError
  | parsed (idTracking : List (String × Int)) (lastTimestamp : Option Int)
  | parsedLegacy (processedIds : List String) (lastTimestamp : Option Int)
deriving Repr

/-- Model of `FileCheckpoint._load_checkpoint` for one key: a key already in
the cache is untouched; otherwise the cache entry starts from the empty
default and is overlaid with whatever the file read yields — a missing file
or a read/parse error leaves the default (the `except` branch only logs). -/
def loadCheckpoint (cached : Option CheckpointRecord) (now : Int)
    (outcome : LoadOutcome) : CheckpointRecord :=
  match cached with
  | some r => r
  | none =>
    match outcome with
    | .missing => defaultRecord
    | .readError => defaultRecord
    | .parsed it ts => { idTracking := it, lastTimestamp := ts, pending := 0 }
    | .parsedLegacy pids ts =>
        { idTracking := pids.map (fun pid => (pid, now)),
          lastTimestamp := ts, pending := 0 }

/-- Substring test (Python's `in` on strings). -/
def strContainsSub (hay needle : String) : Bool :=
  decide (needle.toList <:+: hay.toList)

/-- The busy-signal class tested by `_safe_export_with_retry`:
`'429' in error_msg or 'duplicate export' in error_msg or
'export already running' in error_msg` on the lowercased message. -/
def rateLimitClass (msg : String) : Bool :=
  let m := msg.toLower
  strContainsSub m "429" || strContainsSub m "duplicate export" ||
    strContainsSub m "export already running"

/-- One invocation of the zero-argument export factory: the items the lazy
sequence yields before it either completes (`err = none`) or raises the given
error. -/
structure ExportRun (α : Type) where
  items : List α
  err : Option String

/-- Final outcome of the wrapped export generator. -/
inductive ExportOutcome where
  | completed
  | failed (msg : String)
deriving DecidableEq, Repr

/-- The attempt loop of `_safe_export_with_retry`.  `runs n` is what the
factory produces when invoked for attempt `n`; `fuel` bounds the recursion
and is `max_retries + 1 - attempt` at every reachable call.  An attempt's
items are yielded through; on an error the wrapper retries (re-invoking the
factory) only when no item was yielded in this attempt (`export_started` is
false), the message is in the busy-signal class, and `attempt < max_retries`;
otherwise the error propagates.  Sleep/backoff timing is not modelled. -/
def safeExportAux {α : Type} (runs : Nat → ExportRun α) (maxRetries : Nat) :
    Nat → Nat → List α × ExportOutcome
  | 0, _ => ([], .failed "")
  | fuel + 1, attempt =>
    let r := runs attempt
    match r.err with
    | none => (r.items, .completed)
    | some msg =>
      if r.items.isEmpty && rateLimitClass msg && decide (attempt < maxRetries) then
        let rest := safeExportAux runs maxRetries fuel (attempt + 1)
        (r.items ++ rest.1, rest.2)
      else
        (r.items, .failed msg)

/-- Model of `_safe_export_with_retry` (items yielded overall, and how the
generator ends), starting at attempt 0 with `max_retries + 1` attempts
available. -/
def safeExportWithRetry {α : Type} (runs : Nat → ExportRun α)
    (maxRetries : Nat) : List α × ExportOutcome :=
  safeExportAux runs maxRetries (maxRetries + 1) 0

/-- State of one `BaseFeedProcessor` that `flush_events` touches: the event
buffer, the correlated `_buffer_ids`, the checkpoint record for the feed's
key, and `_hec_sent_count`. -/
structure FeedState (ε : Type) where
  eventBuffer : List ε
  bufferIds : List PyVal
  record : CheckpointRecord
  hecSentCount : Nat

/-- Model of `BaseFeedProcessor.flush_events`.  The delivery attempt is
modelled by its outcome: `.error ()` when `send_batch` raises, `.ok k` when
it reports `k` events sent.  Full success marks every buffered id processed;
partial success marks the first `min k |ids|` ids; total failure and the
exception path mark nothing.  Every branch clears both buffers.  The
function performs exactly one delivery attempt — there is no retry loop. -/
def flushEvents {ε : Type} (cfg : CheckpointConfig) (now : Int)
    (st : FeedState ε) (sendResult : Except Unit Nat) : FeedState ε × Bool :=
  if st.eventBuffer.isEmpty then (st, true)
  else
    match sendResult with
    | .error _ =>
        ({ st with eventBuffer := [], bufferIds := [] }, false)
    | .ok successCount =>
        if successCount = st.eventBuffer.length then
          let rec' := st.bufferIds.foldl (fun r i => addProcessedId cfg now r i) st.record
          ({ st with record := rec',
                     hecSentCount := st.hecSentCount + successCount,
                     eventBuffer := [], bufferIds := [] }, true)
        else if 0 < successCount then
          let rec' := (st.bufferIds.take successCount).foldl
            (fun r i => addProcessedId cfg now r i) st.record
          ({ st with record := rec',
                     hecSentCount := st.hecSentCount + successCount,
                     eventBuffer := [], bufferIds := [] }, false)
        else
          ({ st with eventBuffer := [], bufferIds := [] }, false)

/-- Core of `DeletedAssetProcessor.process` once the full scan has produced
the current id universe: read the previously stored (non-expired) id set,
synthesize one deletion event per id present before but absent now, then
mark every current id processed in the checkpoint.  Returns the deletion
events (by asset id) and the updated record.  Nothing is ever removed from
the record here — `mark_processed` only adds. -/
def deletedAssetRun (cfg : CheckpointConfig) (now : Int) (r : CheckpointRecord)
    (currentAssets : List String) : List String × CheckpointRecord :=
  let previous := getProcessedIds cfg now r
  let deleted := previous.filter (fun a => !(currentAssets.contains a))
  let r' := currentAssets.foldl
    (fun acc a => addProcessedId cfg now acc (PyVal.pvStr a)) r
  (deleted, r')

/-- Adaptive pacing state of `http_event_collector`: the current
`batch_delay` (a Python float, modelled as a rational), the
consecutive-success streak, and the throttle/retry counters. -/
structure SinkState where
  batchDelay : ℚ
  consecutiveSuccesses : Nat
  throttleCount : Nat
  retryCount : Nat
deriving DecidableEq, Repr

/-- `_min_batch_delay = 0.001`. -/
def minBatchDelay : ℚ := 1 / 1000

/-- `_max_batch_delay = 1.0`. -/
def maxBatchDelay : ℚ := 1

/-- `_throttle_factor = 2.0`. -/
def throttleFactor : ℚ := 2

/-- `_speedup_factor = 0.9`. -/
def speedupFactor : ℚ := 9 / 10

/-- `_speedup_threshold = 10`. -/
def speedupThreshold : Nat := 10

/-- The HTTP-200 branch of `flushBatch`: bump the success streak and, once it
reaches the threshold, multiplicatively shrink the delay clamped to the
floor and reset the streak. -/
def onFlushSuccess (s : SinkState) : SinkState :=
  let c := s.consecutiveSuccesses + 1
  if speedupThreshold ≤ c then
    { s with batchDelay := max minBatchDelay (s.batchDelay * speedupFactor),
             consecutiveSuccesses := 0 }
  else
    { s with consecutiveSuccesses := c }

/-- The 429/503 branch of `flushBatch`: count a retry, reset the success
streak, multiplicatively grow the delay clamped to the ceiling, and count a
throttle. -/
def onOverloadStatus (s : SinkState) : SinkState :=
  { s with retryCount := s.retryCount + 1,
           consecutiveSuccesses := 0,
           batchDelay := min maxBatchDelay (s.batchDelay * throttleFactor),
           throttleCount := s.throttleCount + 1 }

/-- The request-timeout branch of `flushBatch`: count a retry, reset the
success streak, multiplicatively grow the delay clamped to the ceiling, and
count a throttle only when the delay actually grew. -/
def onTimeout (s : SinkState) : SinkState :=
  let newDelay := min maxBatchDelay (s.batchDelay * throttleFactor)
  { s with retryCount := s.retryCount + 1,
           consecutiveSuccesses := 0,
           batchDelay := newDelay,
           throttleCount :=
             if s.batchDelay < newDelay then s.throttleCount + 1
             else s.throttleCount }

/-- Small checkpoint configuration used in the concrete deletion-diff
scenario: room for 10 ids, a 1000-second retention window, auto-flush every
100 adds. -/
def cfgDiff : CheckpointConfig :=
  { maxIds := 10, retentionSeconds := 1000, flushInterval := 100 }

/-- Checkpoint record holding the previously stored id set {A, B, C},
built by three `mark_processed` calls at time 50. -/
def recABC : CheckpointRecord :=
  addProcessedId cfgDiff 50
    (addProcessedId cfgDiff 50
      (addProcessedId cfgDiff 50 defaultRecord (PyVal.pvStr "A"))
      (PyVal.pvStr "B"))
    (PyVal.pvStr "C")

/-- One deletion-diff run at time 60 against the current full-scan universe
{B, C, D}. -/
def diffRun : List String × CheckpointRecord :=
  deletedAssetRun cfgDiff 60 recABC ["B", "C", "D"]

theorem trackFind_insert_self (m : List (String × Int)) (k : String) (t : Int) :
    trackFind (trackInsert m k t) k = some t := by
  induction m with
  | nil => simp [trackInsert, trackFind]
  | cons hd tl ih =>
    obtain ⟨k', t'⟩ := hd
    by_cases h : k' = k
    · simp [trackInsert, trackFind, h]
    · simp [trackInsert, trackFind, h, ih]

theorem trackFind_insert_of_ne (m : List (String × Int)) {s k : String}
    (t : Int) (h : s ≠ k) :
    trackFind (trackInsert m k t) s = trackFind m s := by
  have hks : ¬ k = s := fun hh => h hh.symm
  induction m with
  | nil => simp [trackInsert, trackFind, hks]
  | cons hd tl ih =>
    obtain ⟨k', t'⟩ := hd
    by_cases hk : k' = k
    · subst hk
      simp [trackInsert, trackFind, hks]
    · by_cases hs : k' = s
      · simp [trackInsert, trackFind, hk, hs, hks, h]
      · simp [trackInsert, trackFind, hk, hs, ih]

theorem trackInsert_length_le (m : List (String × Int)) (k : String) (t : Int) :
    (trackInsert m k t).length ≤ m.length + 1 := by
  induction m with
  | nil => simp [trackInsert]
  | cons hd tl ih =>
    obtain ⟨k', t'⟩ := hd
    by_cases h : k' = k
    · simp [trackInsert, h]
    · simpa [trackInsert, h] using ih

theorem trackFind_mem {m : List (String × Int)} {s : String} {t : Int}
    (h : trackFind m s = some t) : (s, t) ∈ m := by
  induction m with
  | nil => simp [trackFind] at h
  | cons hd tl ih =>
    obtain ⟨k', t'⟩ := hd
    by_cases hk : k' = s
    · subst hk
      simp [trackFind] at h
      simp [h]
    · simp [trackFind, hk] at h
      exact List.mem_cons_of_mem _ (ih h)

theorem trackFind_isSome_of_mem {m : List (String × Int)} {s : String}
    (h : s ∈ m.map Prod.fst) : ∃ t, trackFind m s = some t := by
  induction m with
  | nil => simp at h
  | cons hd tl ih =>
    obtain ⟨k', t'⟩ := hd
    by_cases hk : k' = s
    · exact ⟨t', by simp [trackFind, hk]⟩
    · have h' : s ∈ tl.map Prod.fst := by
        rcases List.mem_map.mp h with ⟨x, hx, hfst⟩
        rcases List.mem_cons.mp hx with hxh | hxt
        · rw [hxh] at hfst
          exact absurd hfst hk
        · exact List.mem_map.mpr ⟨x, hxt, hfst⟩
      rcases ih h' with ⟨t, ht⟩
      exact ⟨t, by simp [trackFind, hk, ht]⟩

theorem trackFind_eq_none_iff (m : List (String × Int)) (s : String) :
    trackFind m s = none ↔ s ∉ m.map Prod.fst := by
  constructor
  · intro h hmem
    rcases trackFind_isSome_of_mem hmem with ⟨t, ht⟩
    rw [h] at ht
    exact Option.noConfusion ht
  · intro h
    cases hf : trackFind m s with
    | none => rfl
    | some t =>
      exact absurd (List.mem_map_of_mem Prod.fst (trackFind_mem hf)) h

theorem trackFind_filter_of_true {m : List (String × Int)} {s : String}
    {t : Int} (p : String × Int → Bool) (h : trackFind m s = some t)
    (hp : p (s, t) = true) : trackFind (m.filter p) s = some t := by
  induction m with
  | nil => simp [trackFind] at h
  | cons hd tl ih =>
    obtain ⟨k', t'⟩ := hd
    by_cases hk : k' = s
    · subst hk
      simp [trackFind] at h
      subst h
      simp [List.filter, hp, trackFind]
    · simp [trackFind, hk] at h
      by_cases hphd : p (k', t') = true
      · simp [List.filter, hphd, trackFind, hk, ih h]
      · simp only [List.filter, Bool.not_eq_true] at hphd ⊢
        rw [hphd]
        exact ih h

theorem trackFind_filter_none {m : List (String × Int)} {s : String}
    (p : String × Int → Bool) (h : trackFind m s = none) :
    trackFind (m.filter p) s = none := by
  rw [trackFind_eq_none_iff] at h ⊢
  intro hmem
  rcases List.mem_map.mp hmem with ⟨x, hx, hfst⟩
  exact h (List.mem_map.mpr ⟨x, List.mem_of_mem_filter hx, hfst⟩)

theorem insertByTsDesc_perm (x : String × Int) (l : List (String × Int)) :
    (insertByTsDesc x l).Perm (x :: l) := by
  induction l with
  | nil => simp [insertByTsDesc]
  | cons y ys ih =>
    by_cases h : x.2 ≤ y.2
    · simp only [insertByTsDesc, if_pos h]
      exact (ih.cons y).trans (List.Perm.swap x y ys)
    · simp [insertByTsDesc, if_neg h]

theorem sortByTsDesc_perm (l : List (String × Int)) :
    (sortByTsDesc l).Perm l := by
  induction l using List.reverseRecOn with
  | nil => simp [sortByTsDesc]
  | append_singleton ys x ih =>
    have hstep : sortByTsDesc (ys ++ [x]) = insertByTsDesc x (sortByTsDesc ys) := by
      simp [sortByTsDesc, List.foldl_append]
    rw [hstep]
    exact ((insertByTsDesc_perm x (sortByTsDesc ys)).trans (ih.cons x)).trans
      (List.perm_append_singleton x ys).symm

theorem sortByTsDesc_length (l : List (String × Int)) :
    (sortByTsDesc l).length = l.length :=
  (sortByTsDesc_perm l).length_eq

theorem insertByTsDesc_top {x : String × Int} {l : List (String × Int)}
    (h : ∀ y ∈ l, y.2 < x.2) : insertByTsDesc x l = x :: l := by
  cases l with
  | nil => rfl
  | cons y ys =>
    have : ¬ x.2 ≤ y.2 := not_le.mpr (h y (by simp))
    simp [insertByTsDesc, this]

theorem flushRecord_idTracking (cfg : CheckpointConfig) (now : Int)
    (r : CheckpointRecord) :
    (flushRecord cfg now r).idTracking =
      if cfg.maxIds <
          (r.idTracking.filter (fun p => now - cfg.retentionSeconds < p.2)).length
      then (sortByTsDesc
          (r.idTracking.filter (fun p => now - cfg.retentionSeconds < p.2))).take
          cfg.maxIds
      else r.idTracking.filter (fun p => now - cfg.retentionSeconds < p.2) :=
  rfl

theorem mem_flushRecord_sub (cfg : CheckpointConfig) (now : Int)
    (r : CheckpointRecord) {x : String × Int}
    (hx : x ∈ (flushRecord cfg now r).idTracking) : x ∈ r.idTracking := by
  rw [flushRecord_idTracking] at hx
  by_cases hlen : cfg.maxIds <
      (r.idTracking.filter (fun p => now - cfg.retentionSeconds < p.2)).length
  · rw [if_pos hlen] at hx
    have h1 : x ∈ sortByTsDesc
        (r.idTracking.filter (fun p => now - cfg.retentionSeconds < p.2)) :=
      (List.take_sublist _ _).mem hx
    exact List.mem_of_mem_filter ((sortByTsDesc_perm _).mem_iff.mp h1)
  · rw [if_neg hlen] at hx
    exact List.mem_of_mem_filter hx

theorem flushRecord_length_le (cfg : CheckpointConfig) (now : Int)
    (r : CheckpointRecord) :
    (flushRecord cfg now r).idTracking.length ≤ r.idTracking.length := by
  rw [flushRecord_idTracking]
  by_cases hlen : cfg.maxIds <
      (r.idTracking.filter (fun p => now - cfg.retentionSeconds < p.2)).length
  · rw [if_pos hlen]
    calc ((sortByTsDesc _).take cfg.maxIds).length
        ≤ (sortByTsDesc
            (r.idTracking.filter (fun p => now - cfg.retentionSeconds < p.2))).length := by
          rw [List.length_take]
          exact min_le_right _ _
      _ = (r.idTracking.filter (fun p => now - cfg.retentionSeconds < p.2)).length :=
          sortByTsDesc_length _
      _ ≤ r.idTracking.length := List.length_filter_le _ _
  · rw [if_neg hlen]
    exact List.length_filter_le _ _

theorem flushRecord_find_kept (cfg : CheckpointConfig) (now : Int)
    (r : CheckpointRecord) {s : String} {t : Int}
    (hlen : r.idTracking.length ≤ cfg.maxIds)
    (h : trackFind r.idTracking s = some t)
    (hts : now - cfg.retentionSeconds < t) :
    trackFind (flushRecord cfg now r).idTracking s = some t := by
  have hnotrim : ¬ cfg.maxIds <
      (r.idTracking.filter (fun p => now - cfg.retentionSeconds < p.2)).length :=
    not_lt.mpr (le_trans (List.length_filter_le _ _) hlen)
  rw [flushRecord_idTracking, if_neg hnotrim]
  exact trackFind_filter_of_true _ h (by simpa using hts)

theorem flushRecord_find_none (cfg : CheckpointConfig) (now : Int)
    (r : CheckpointRecord) {s : String}
    (h : trackFind r.idTracking s = none) :
    trackFind (flushRecord cfg now r).idTracking s = none := by
  rw [trackFind_eq_none_iff] at h ⊢
  intro hmem
  rcases List.mem_map.mp hmem with ⟨x, hx, hfst⟩
  exact h (List.mem_map.mpr ⟨x, mem_flushRecord_sub cfg now r hx, hfst⟩)

theorem addProcessedId_length_le (cfg : CheckpointConfig) (now : Int)
    (r : CheckpointRecord) (i : PyVal) :
    (addProcessedId cfg now r i).idTracking.length ≤ r.idTracking.length + 1 := by
  unfold addProcessedId
  by_cases hfl : cfg.flushInterval ≤ r.pending + 1
  · simp only [hfl, if_pos]
    exact le_trans (flushRecord_length_le _ _ _) (trackInsert_length_le _ _ _)
  · simp only [hfl, if_neg, not_false_iff]
    exact trackInsert_length_le _ _ _

theorem addProcessedId_find_self (cfg : CheckpointConfig) (now : Int)
    (r : CheckpointRecord) (i : PyVal)
    (hret : 0 < cfg.retentionSeconds)
    (hcap : (trackInsert r.idTracking (pyStr i) now).length ≤ cfg.maxIds) :
    trackFind (addProcessedId cfg now r i).idTracking (pyStr i) = some now := by
  unfold addProcessedId
  by_cases hfl : cfg.flushInterval ≤ r.pending + 1
  · simp only [hfl, if_pos]
    exact flushRecord_find_kept cfg now _ hcap (trackFind_insert_self _ _ _)
      (sub_lt_self now hret)
  · simp only [hfl, if_neg, not_false_iff]
    exact trackFind_insert_self _ _ _

theorem addProcessedId_keep_now (cfg : CheckpointConfig) (now : Int)
    (r : CheckpointRecord) (i : PyVal) {s : String}
    (hret : 0 < cfg.retentionSeconds)
    (hcap : (trackInsert r.idTracking (pyStr i) now).length ≤ cfg.maxIds)
    (h : trackFind r.idTracking s = some now) :
    trackFind (addProcessedId cfg now r i).idTracking s = some now := by
  have hins : trackFind (trackInsert r.idTracking (pyStr i) now) s = some now := by
    by_cases hs : s = pyStr i
    · rw [hs]
      exact trackFind_insert_self _ _ _
    · rw [trackFind_insert_of_ne _ _ hs]
      exact h
  unfold addProcessedId
  by_cases hfl : cfg.flushInterval ≤ r.pending + 1
  · simp only [hfl, if_pos]
    exact flushRecord_find_kept cfg now _ hcap hins (sub_lt_self now hret)
  · simp only [hfl, if_neg, not_false_iff]
    exact hins

theorem addProcessedId_find_none (cfg : CheckpointConfig) (now : Int)
    (r : CheckpointRecord) (i : PyVal) {s : String} (hne : s ≠ pyStr i)
    (h : trackFind r.idTracking s = none) :
    trackFind (addProcessedId cfg now r i).idTracking s = none := by
  have hins : trackFind (trackInsert r.idTracking (pyStr i) now) s = none := by
    rw [trackFind_insert_of_ne _ _ hne]
    exact h
  unfold addProcessedId
  by_cases hfl : cfg.flushInterval ≤ r.pending + 1
  · simp only [hfl, if_pos]
    exact flushRecord_find_none cfg now _ hins
  · simp only [hfl, if_neg, not_false_iff]
    exact hins

theorem markFold_spec (cfg : CheckpointConfig) (now : Int)
    (hret : 0 < cfg.retentionSeconds) :
    ∀ (ids : List PyVal) (r : CheckpointRecord),
      r.idTracking.length + ids.length ≤ cfg.maxIds →
      (∀ i ∈ ids, trackFind r.idTracking (pyStr i) = none) →
      (ids.map pyStr).Nodup →
      (∀ s, trackFind r.idTracking s = some now →
          trackFind (ids.foldl (fun acc i => addProcessedId cfg now acc i)
            r).idTracking s = some now) ∧
      (∀ i ∈ ids,
          trackFind (ids.foldl (fun acc i => addProcessedId cfg now acc i)
            r).idTracking (pyStr i) = some now) ∧
      (∀ s, trackFind r.idTracking s = none → s ∉ ids.map pyStr →
          trackFind (ids.foldl (fun acc i => addProcessedId cfg now acc i)
            r).idTracking s = none) ∧
      (ids.foldl (fun acc i => addProcessedId cfg now acc i)
          r).idTracking.length ≤ r.idTracking.length + ids.length := by
  intro ids
  induction ids with
  | nil =>
    intro r _ _ _
    refine ⟨fun s h => h, ?_, fun s h _ => h, by simp⟩
    intro i hi
    simp at hi
  | cons i rest ih =>
    intro r hcap hfresh hnodup
    have hcap1 : (trackInsert r.idTracking (pyStr i) now).length ≤ cfg.maxIds := by
      have := trackInsert_length_le r.idTracking (pyStr i) now
      simp only [List.length_cons] at hcap
      omega
    have hr1len : (addProcessedId cfg now r i).idTracking.length ≤
        r.idTracking.length + 1 := addProcessedId_length_le cfg now r i
    have hnodup_rest : (rest.map pyStr).Nodup := (List.nodup_cons.mp hnodup).2
    have hi_not_rest : pyStr i ∉ rest.map pyStr := (List.nodup_cons.mp hnodup).1
    have hfresh_rest : ∀ j ∈ rest,
        trackFind (addProcessedId cfg now r i).idTracking (pyStr j) = none := by
      intro j hj
      have hne : pyStr j ≠ pyStr i := by
        intro hh
        exact hi_not_rest (hh ▸ List.mem_map_of_mem pyStr hj)
      exact addProcessedId_find_none cfg now r i hne
        (hfresh j (List.mem_cons_of_mem i hj))
    have hcap_rest : (addProcessedId cfg now r i).idTracking.length +
        rest.length ≤ cfg.maxIds := by
      simp only [List.length_cons] at hcap
      omega
    obtain ⟨A1, B1, C1, D1⟩ := ih (addProcessedId cfg now r i) hcap_rest
      hfresh_rest hnodup_rest
    have hfind1 : trackFind (addProcessedId cfg now r i).idTracking (pyStr i) =
        some now := addProcessedId_find_self cfg now r i hret hcap1
    refine ⟨?_, ?_, ?_, ?_⟩
    · intro s hs
      exact A1 s (addProcessedId_keep_now cfg now r i hret hcap1 hs)
    · intro j hj
      rcases List.mem_cons.mp hj with hji | hjr
      · rw [hji]
        exact A1 _ hfind1
      · exact B1 j hjr
    · intro s hs hsnot
      have hsi : s ≠ pyStr i := by
        intro hh
        exact hsnot (by simp [hh])
      have hsrest : s ∉ rest.map pyStr := by
        intro hh
        exact hsnot (by simp [hh])
      exact C1 s (addProcessedId_find_none cfg now r i hsi hs) hsrest
    · calc (List.foldl (fun acc i => addProcessedId cfg now acc i)
            (addProcessedId cfg now r i) rest).idTracking.length
          ≤ (addProcessedId cfg now r i).idTracking.length + rest.length := D1
        _ ≤ r.idTracking.length + 1 + rest.length := by omega
        _ = r.idTracking.length + (i :: rest).length := by
            simp [List.length_cons]
            omega

theorem sortByTsDesc_of_pairwise {l : List (String × Int)}
    (h : l.Pairwise (fun a b => a.2 < b.2)) : sortByTsDesc l = l.reverse := by
  induction l using List.reverseRecOn with
  | nil => simp [sortByTsDesc]
  | append_singleton ys x ih =>
    have hys : ys.Pairwise (fun a b => a.2 < b.2) :=
      h.sublist (List.sublist_append_left ys [x])
    have htop : ∀ y ∈ ys.reverse, y.2 < x.2 := by
      intro y hy
      have := List.pairwise_append.mp h
      exact this.2.2 y (List.mem_reverse.mp hy) x (by simp)
    have hstep : sortByTsDesc (ys ++ [x]) = insertByTsDesc x (sortByTsDesc ys) := by
      simp [sortByTsDesc, List.foldl_append]
    rw [hstep, ih hys, insertByTsDesc_top htop, List.reverse_append]
    simp

theorem nodupKeys_eq {m : List (String × Int)} (hnd : (m.map Prod.fst).Nodup)
    {s : String} {a b : Int} (ha : (s, a) ∈ m) (hb : (s, b) ∈ m) : a = b := by
  induction m with
  | nil => simp at ha
  | cons hd tl ih =>
    obtain ⟨k', t'⟩ := hd
    rw [List.map_cons, List.nodup_cons] at hnd
    rcases List.mem_cons.mp ha with hah | hat
    · rcases List.mem_cons.mp hb with hbh | hbt
      · obtain ⟨hs1, ht1⟩ := Prod.mk.injEq .. ▸ hah
        obtain ⟨hs2, ht2⟩ := Prod.mk.injEq .. ▸ hbh
        rw [ht1, ht2]
      · obtain ⟨hs1, _⟩ := Prod.mk.injEq .. ▸ hah
        have hmem : s ∈ tl.map Prod.fst := List.mem_map_of_mem Prod.fst hbt
        rw [hs1] at hmem
        exact absurd hmem hnd.1
    · rcases List.mem_cons.mp hb with hbh | hbt
      · obtain ⟨hs2, _⟩ := Prod.mk.injEq .. ▸ hbh
        have hmem : s ∈ tl.map Prod.fst := List.mem_map_of_mem Prod.fst hat
        rw [hs2] at hmem
        exact absurd hmem hnd.1
      · exact ih hnd.2 hat hbt

theorem isProcessed_of_find_now (cfg : CheckpointConfig) (now : Int)
    (r : CheckpointRecord) (i : PyVal)
    (h : trackFind r.idTracking (pyStr i) = some now)
    (hret : 0 < cfg.retentionSeconds) :
    isProcessed cfg now r i = true := by
  unfold isProcessed
  rw [h]
  simp only [decide_eq_true_eq]
  omega

theorem isProcessed_of_find_none (cfg : CheckpointConfig) (now : Int)
    (r : CheckpointRecord) (i : PyVal)
    (h : trackFind r.idTracking (pyStr i) = none) :
    isProcessed cfg now r i = false := by
  unfold isProcessed
  rw [h]

theorem insertFold_keep_now (now : Int) :
    ∀ (ids : List PyVal) (m : List (String × Int)) (s : String),
      trackFind m s = some now →
      trackFind (ids.foldl (fun acc i => trackInsert acc (pyStr i) now) m) s =
        some now := by
  intro ids
  induction ids with
  | nil => intro m s h; exact h
  | cons i rest ih =>
    intro m s h
    apply ih
    by_cases hs : s = pyStr i
    · rw [hs]
      exact trackFind_insert_self _ _ _
    · rw [trackFind_insert_of_ne _ _ hs]
      exact h

theorem insertFold_self (now : Int) :
    ∀ (ids : List PyVal) (m : List (String × Int)), ∀ i ∈ ids,
      trackFind (ids.foldl (fun acc j => trackInsert acc (pyStr j) now) m)
        (pyStr i) = some now := by
  intro ids
  induction ids with
  | nil => intro m i hi; simp at hi
  | cons j rest ih =>
    intro m i hi
    rcases List.mem_cons.mp hi with hij | hir
    · rw [hij]
      exact insertFold_keep_now now rest _ _ (trackFind_insert_self _ _ _)
    · exact ih _ i hir

theorem onFlushSuccess_iterate (s : SinkState)
    (h0 : s.consecutiveSuccesses = 0) :
    ∀ k, k < speedupThreshold →
      onFlushSuccess^[k] s = { s with consecutiveSuccesses := k } := by
  intro k
  induction k with
  | zero =>
    intro _
    rw [Function.iterate_zero_apply, ← h0]
  | succ k ih =>
    intro hk
    rw [Function.iterate_succ_apply', ih (by omega)]
    unfold onFlushSuccess
    have hlt : ¬ speedupThreshold ≤ k + 1 := by omega
    simp [hlt]

theorem safeExportAux_spec {α : Type} (runs : Nat → ExportRun α)
    (maxRetries : Nat) :
    ∀ (fuel attempt : Nat), attempt + fuel = maxRetries + 1 →
      attempt ≤ maxRetries →
    ∃ k, attempt ≤ k ∧ k ≤ maxRetries ∧
      safeExportAux runs maxRetries fuel attempt =
        ((runs k).items,
          match (runs k).err with
          | none => ExportOutcome.completed
          | some m => ExportOutcome.failed m) ∧
      (∀ j, attempt ≤ j → j < k →
        (runs j).items = [] ∧
          ∃ m, (runs j).err = some m ∧ rateLimitClass m = true) ∧
      (∀ m, (runs k).err = some m → k < maxRetries →
        ¬((runs k).items = [] ∧ rateLimitClass m = true)) := by
  intro fuel
  induction fuel with
  | zero =>
    intro attempt h1 h2
    omega
  | succ fuel ih =>
    intro attempt h1 h2
    cases herr : (runs attempt).err with
    | none =>
      refine ⟨attempt, le_refl _, h2, ?_, ?_, ?_⟩
      · simp [safeExportAux, herr]
      · intro j hj1 hj2
        omega
      · intro m hm
        rw [herr] at hm
        exact Option.noConfusion hm
    | some msg =>
      by_cases hguard : ((runs attempt).items.isEmpty && rateLimitClass msg &&
          decide (attempt < maxRetries)) = true
      · have hempty : (runs attempt).items = [] := by
          have := (Bool.and_eq_true _ _).mp hguard
          exact List.isEmpty_iff.mp ((Bool.and_eq_true _ _).mp this.1).1
        have hrl : rateLimitClass msg = true := by
          have := (Bool.and_eq_true _ _).mp hguard
          exact ((Bool.and_eq_true _ _).mp this.1).2
        have hlt : attempt < maxRetries := by
          have := (Bool.and_eq_true _ _).mp hguard
          exact of_decide_eq_true this.2
        obtain ⟨k, hk1, hk2, heq, hmid, hlast⟩ :=
          ih (attempt + 1) (by omega) (by omega)
        refine ⟨k, by omega, hk2, ?_, ?_, hlast⟩
        · have hstep : safeExportAux runs maxRetries (fuel + 1) attempt =
              ((runs attempt).items ++
                (safeExportAux runs maxRetries fuel (attempt + 1)).1,
               (safeExportAux runs maxRetries fuel (attempt + 1)).2) := by
            simp [safeExportAux, herr, hguard]
          rw [hstep, heq, hempty]
          simp
        · intro j hj1 hj2
          by_cases hja : j = attempt
          · subst hja
            exact ⟨hempty, msg, herr, hrl⟩
          · exact hmid j (by omega) hj2
      · refine ⟨attempt, le_refl _, h2, ?_, ?_, ?_⟩
        · simp [safeExportAux, herr, hguard]
        · intro j hj1 hj2
          omega
        · intro m hm hltm
          rw [herr] at hm
          have hmsg : msg = m := Option.some.injEq .. ▸ hm
          subst hmsg
          rintro ⟨hemp, hrlm⟩
          apply hguard
          simp [hemp, hrlm, hltm]

/-- C1: the export retry wrapper emits exactly the items of one factory
invocation `k ≤ max_retries`; every earlier attempt yielded no item and
failed with a rate-limit / duplicate-export-class error (so an error raised
after at least one item of the current attempt, or an error outside that
class, propagates immediately and the factory is not re-invoked — no item is
ever emitted twice); and when the final attempt fails while retries remain,
it is because the retry conditions (no item yielded and busy-signal class)
did not hold. -/
theorem c1_export_retry_safety {α : Type} (runs : Nat → ExportRun α)
    (maxRetries : Nat) :
    ∃ k, k ≤ maxRetries ∧
      safeExportWithRetry runs maxRetries =
        ((runs k).items,
          match (runs k).err with
          | none => ExportOutcome.completed
          | some m => ExportOutcome.failed m) ∧
      (∀ j, j < k →
        (runs j).items = [] ∧
          ∃ m, (runs j).err = some m ∧ rateLimitClass m = true) ∧
      (∀ m, (runs k).err = some m → k < maxRetries →
        ¬((runs k).items = [] ∧ rateLimitClass m = true)) := by
  obtain ⟨k, _, hk2, heq, hmid, hlast⟩ :=
    safeExportAux_spec runs maxRetries (maxRetries + 1) 0 (by omega) (by omega)
  exact ⟨k, hk2, heq, fun j hj => hmid j (by omega) hj, hlast⟩

/-- C3: with more than `max_ids` distinct, non-expired ids whose observation
times are strictly increasing, `flush` leaves exactly the `max_ids`
most-recently-observed entries in the id index (in most-recent-first order),
and `is_processed` answers true exactly for those ids. -/
theorem c3_eviction_correctness (cfg : CheckpointConfig) (now : Int)
    (r : CheckpointRecord)
    (_hnodup : (r.idTracking.map Prod.fst).Nodup)
    (hmono : r.idTracking.Pairwise (fun a b => a.2 < b.2))
    (hlive : ∀ p ∈ r.idTracking, now - cfg.retentionSeconds < p.2)
    (hlen : cfg.maxIds < r.idTracking.length) :
    (flushRecord cfg now r).idTracking =
      (r.idTracking.drop (r.idTracking.length - cfg.maxIds)).reverse ∧
    ∀ s : String,
      isProcessed cfg now (flushRecord cfg now r) (PyVal.pvStr s) = true ↔
        s ∈ (r.idTracking.drop (r.idTracking.length - cfg.maxIds)).map
          Prod.fst := by
  have hfilter : r.idTracking.filter
      (fun p => now - cfg.retentionSeconds < p.2) = r.idTracking :=
    List.filter_eq_self.mpr (fun a ha => by simpa using hlive a ha)
  have htrack : (flushRecord cfg now r).idTracking =
      (r.idTracking.drop (r.idTracking.length - cfg.maxIds)).reverse := by
    rw [flushRecord_idTracking, hfilter, if_pos hlen,
      sortByTsDesc_of_pairwise hmono, List.take_reverse]
  refine ⟨htrack, ?_⟩
  intro s
  constructor
  · intro hproc
    unfold isProcessed at hproc
    cases hf : trackFind (flushRecord cfg now r).idTracking (pyStr (.pvStr s)) with
    | none =>
      rw [hf] at hproc
      simp at hproc
    | some ts =>
      have hmem := trackFind_mem hf
      rw [htrack] at hmem
      exact List.mem_map.mpr
        ⟨(s, ts), List.mem_reverse.mp hmem, rfl⟩
  · intro hmem
    rcases List.mem_map.mp hmem with ⟨x, hx, hfst⟩
    have hmem' : s ∈ ((flushRecord cfg now r).idTracking).map Prod.fst := by
      rw [htrack]
      exact List.mem_map.mpr ⟨x, List.mem_reverse.mpr hx, hfst⟩
    rcases trackFind_isSome_of_mem hmem' with ⟨t, ht⟩
    have hmeml : (s, t) ∈ r.idTracking := by
      have h2 := trackFind_mem ht
      rw [htrack] at h2
      exact List.drop_subset _ _ (List.mem_reverse.mp h2)
    have hts := hlive (s, t) hmeml
    unfold isProcessed
    simp only [pyStr]
    rw [ht]
    simpa using hts

/-- C3 witness: three ids with times 1 < 2 < 3 under `max_ids = 2`; after
flush the index holds exactly the two most recent ids c and b. -/
theorem c3_eviction_correctness_witness :
    ((([("a", 1), ("b", 2), ("c", 3)] : List (String × Int)).map
        Prod.fst).Nodup ∧
      ([("a", 1), ("b", 2), ("c", 3)] : List (String × Int)).Pairwise
        (fun a b => a.2 < b.2) ∧
      (∀ p ∈ ([("a", 1), ("b", 2), ("c", 3)] : List (String × Int)),
        (3 : Int) - (100 : Int) < p.2) ∧
      (2 : Nat) < ([("a", 1), ("b", 2), ("c", 3)] : List (String × Int)).length) ∧
    ((flushRecord ⟨2, 100, 100⟩ 3
        ⟨[("a", 1), ("b", 2), ("c", 3)], none, 0⟩).idTracking =
      (([("a", 1), ("b", 2), ("c", 3)] : List (String × Int)).drop
        (([("a", 1), ("b", 2), ("c", 3)] : List (String × Int)).length - 2)).reverse ∧
      ∀ s : String,
        isProcessed ⟨2, 100, 100⟩ 3
            (flushRecord ⟨2, 100, 100⟩ 3
              ⟨[("a", 1), ("b", 2), ("c", 3)], none, 0⟩) (PyVal.pvStr s) = true ↔
          s ∈ (([("a", 1), ("b", 2), ("c", 3)] : List (String × Int)).drop
            (([("a", 1), ("b", 2), ("c", 3)] : List (String × Int)).length - 2)).map
            Prod.fst) :=
  ⟨⟨by decide, by decide, by decide, by decide⟩,
    c3_eviction_correctness ⟨2, 100, 100⟩ 3
      ⟨[("a", 1), ("b", 2), ("c", 3)], none, 0⟩
      (by decide) (by decide) (by decide) (by decide)⟩

/-- C4: an id whose recorded observation time is older than the retention
window is reported as not processed and omitted from the processed-id set,
although its entry is still physically present in the index. -/
theorem c4_retention_expiry (cfg : CheckpointConfig) (now : Int)
    (r : CheckpointRecord) (s : String) (ts : Int)
    (hnodup : (r.idTracking.map Prod.fst).Nodup)
    (hfind : trackFind r.idTracking s = some ts)
    (hold : ts < now - cfg.retentionSeconds) :
    isProcessed cfg now r (PyVal.pvStr s) = false ∧
    s ∉ getProcessedIds cfg now r := by
  constructor
  · unfold isProcessed
    rw [show pyStr (PyVal.pvStr s) = s from rfl, hfind]
    simp only [decide_eq_false_iff_not]
    omega
  · intro hmem
    unfold getProcessedIds at hmem
    rcases List.mem_map.mp hmem with ⟨⟨s', t'⟩, hx, hfst⟩
    have hxl := List.mem_of_mem_filter hx
    have hpt : now - cfg.retentionSeconds < t' := by
      have := List.of_mem_filter hx
      simpa using this
    simp only at hfst
    subst hfst
    have := nodupKeys_eq hnodup (trackFind_mem hfind) hxl
    omega

/-- C4 witness: an entry observed at time 0 with a 100-second retention
window, queried at time 1000, answers not-processed and is omitted. -/
theorem c4_retention_expiry_witness :
    (((([("x", 0)] : List (String × Int)).map Prod.fst).Nodup ∧
      trackFind ([("x", 0)] : List (String × Int)) "x" = some 0 ∧
      (0 : Int) < (1000 : Int) - (100 : Int)) ∧
     (isProcessed ⟨10, 100, 100⟩ 1000 ⟨[("x", 0)], none, 0⟩
        (PyVal.pvStr "x") = false ∧
      "x" ∉ getProcessedIds ⟨10, 100, 100⟩ 1000 ⟨[("x", 0)], none, 0⟩)) :=
  ⟨⟨by decide, by decide, by decide⟩,
    c4_retention_expiry ⟨10, 100, 100⟩ 1000 ⟨[("x", 0)], none, 0⟩ "x" 0
      (by decide) (by decide) (by decide)⟩

/-- C5 counterexample: `add_processed_ids_batch` gives both ids of a
two-element batch the same observation time (`int(time.time())`), so the
times assigned within one batch are not strictly increasing and carry no
fractional component — refuting the claim at this concrete input. -/
theorem c5_counterexample :
    trackFind (addProcessedIdsBatch ⟨100000, 2592000, 100⟩ 100 defaultRecord
      [PyVal.pvStr "a", PyVal.pvStr "b"]).idTracking "a" = some 100 ∧
    trackFind (addProcessedIdsBatch ⟨100000, 2592000, 100⟩ 100 defaultRecord
      [PyVal.pvStr "a", PyVal.pvStr "b"]).idTracking "b" = some 100 := by
  constructor <;> rfl

/-- C5 amended: every id of a batch insert is assigned the same observation
time, the current whole second; the batch's relative order is not encoded in
the times, and there is no global last-assigned-time tracking (two batches
within one second receive colliding, equal times). -/
theorem c5_batch_same_time (cfg : CheckpointConfig) (now : Int)
    (r : CheckpointRecord) (ids : List PyVal)
    (hret : 0 < cfg.retentionSeconds)
    (hcap : (ids.foldl (fun m i => trackInsert m (pyStr i) now)
        r.idTracking).length ≤ cfg.maxIds) :
    ∀ i ∈ ids,
      trackFind (addProcessedIdsBatch cfg now r ids).idTracking (pyStr i) =
        some now := by
  intro i hi
  have hne : ¬ ids.isEmpty = true := by
    cases ids with
    | nil => simp at hi
    | cons j rest => simp
  unfold addProcessedIdsBatch
  rw [if_neg hne]
  exact flushRecord_find_kept cfg now _ hcap
    (insertFold_self now ids r.idTracking i hi) (sub_lt_self now hret)

/-- C5 amended witness: a concrete two-id batch where both entries receive
the shared time 100. -/
theorem c5_batch_same_time_witness :
    ((0 : Int) < (2592000 : Int) ∧
      (([PyVal.pvStr "a", PyVal.pvStr "b"].foldl
          (fun m i => trackInsert m (pyStr i) (100 : Int))
          defaultRecord.idTracking).length ≤ 100000) ∧
      PyVal.pvStr "a" ∈ [PyVal.pvStr "a", PyVal.pvStr "b"]) ∧
    trackFind (addProcessedIdsBatch ⟨100000, 2592000, 100⟩ 100 defaultRecord
      [PyVal.pvStr "a", PyVal.pvStr "b"]).idTracking
        (pyStr (PyVal.pvStr "a")) = some 100 :=
  ⟨⟨by decide, by decide, by decide⟩,
    c5_batch_same_time ⟨100000, 2592000, 100⟩ 100 defaultRecord
      [PyVal.pvStr "a", PyVal.pvStr "b"] (by decide) (by decide)
      (PyVal.pvStr "a") (by decide)⟩

/-- C8: loading a checkpoint key whose file is missing or whose read/parse
raised never propagates an error — the key is initialised with the empty
default record (empty id tracking, absent last timestamp), and every
subsequent read on that record behaves as if nothing had been processed. -/
theorem c8_load_failure_defaults :
    (∀ now : Int,
      loadCheckpoint none now LoadOutcome.missing = defaultRecord ∧
      loadCheckpoint none now LoadOutcome.readError = defaultRecord) ∧
    (∀ (cfg : CheckpointConfig) (now : Int) (i : PyVal),
      isProcessed cfg now defaultRecord i = false) ∧
    defaultRecord.lastTimestamp = none ∧
    (∀ (cfg : CheckpointConfig) (now : Int),
      getProcessedIds cfg now defaultRecord = []) :=
  ⟨fun _ => ⟨rfl, rfl⟩, fun _ _ _ => rfl, rfl, fun _ _ => rfl⟩

/-- C10: dedup membership is keyed on the string rendering of the id — for
any two ids with equal `str()` (such as the integer 42 and the string "42"),
adding one makes `is_processed` answer true for the other within the
retention window. -/
theorem c10_str_keyed_dedup (cfg : CheckpointConfig) (now : Int)
    (r : CheckpointRecord) (x y : PyVal)
    (hxy : pyStr x = pyStr y) (hret : 0 < cfg.retentionSeconds)
    (hpend : r.pending + 1 < cfg.flushInterval) :
    isProcessed cfg now (addProcessedId cfg now r x) y = true := by
  have hnoflush : ¬ cfg.flushInterval ≤ r.pending + 1 := by omega
  unfold addProcessedId
  rw [if_neg hnoflush]
  unfold isProcessed
  rw [← hxy, trackFind_insert_self]
  simp only [decide_eq_true_eq]
  omega

/-- C10 witness: the integer id 42 and the string id "42" share the string
rendering "42", so adding the integer makes the string queryable. -/
theorem c10_str_keyed_dedup_witness :
    (pyStr (PyVal.pvInt 42) = pyStr (PyVal.pvStr "42") ∧
      (0 : Int) < (2592000 : Int) ∧
      defaultRecord.pending + 1 < 100) ∧
    isProcessed ⟨100000, 2592000, 100⟩ 1000
      (addProcessedId ⟨100000, 2592000, 100⟩ 1000 defaultRecord
        (PyVal.pvInt 42)) (PyVal.pvStr "42") = true :=
  ⟨⟨by rfl, by decide, by decide⟩,
    c10_str_keyed_dedup ⟨100000, 2592000, 100⟩ 1000 defaultRecord
      (PyVal.pvInt 42) (PyVal.pvStr "42") (by rfl) (by decide) (by decide)⟩

/-- C2: when the sink acknowledges exactly `k` of the `n` buffered events,
`flush_events` marks processed exactly the first `k` buffered ids — all of
them on full success, the acknowledged prefix on partial success, none on
total failure — and the remaining ids still answer `is_processed = false`. -/
theorem c2_flush_ack_marking {ε : Type} (cfg : CheckpointConfig)
    (now : Int) (st : FeedState ε) (k : Nat)
    (hret : 0 < cfg.retentionSeconds)
    (hlen : st.eventBuffer.length = st.bufferIds.length)
    (hne : st.eventBuffer ≠ [])
    (hk : k ≤ st.bufferIds.length)
    (hnodup : (st.bufferIds.map pyStr).Nodup)
    (hfresh : ∀ i ∈ st.bufferIds,
      trackFind st.record.idTracking (pyStr i) = none)
    (hcap : st.record.idTracking.length + k ≤ cfg.maxIds) :
    (∀ i ∈ st.bufferIds.take k,
      isProcessed cfg now ((flushEvents cfg now st (Except.ok k)).1).record i =
        true) ∧
    (∀ i ∈ st.bufferIds.drop k,
      isProcessed cfg now ((flushEvents cfg now st (Except.ok k)).1).record i =
        false) := by
  have hbne : st.eventBuffer.isEmpty = false := by
    cases hb : st.eventBuffer with
    | nil => exact absurd hb hne
    | cons a l => rfl
  by_cases hcase : k = st.eventBuffer.length
  · -- full success: every buffered id is marked
    have hkids : k = st.bufferIds.length := hcase.trans hlen
    have hrec : ((flushEvents cfg now st (Except.ok k)).1).record =
        st.bufferIds.foldl (fun r i => addProcessedId cfg now r i) st.record := by
      simp [flushEvents, hbne, hcase]
    have hcap' : st.record.idTracking.length + st.bufferIds.length ≤
        cfg.maxIds := by omega
    obtain ⟨_, B, _, _⟩ := markFold_spec cfg now hret st.bufferIds st.record
      hcap' hfresh hnodup
    constructor
    · intro i hi
      rw [hrec]
      exact isProcessed_of_find_now cfg now _ i
        (B i (List.take_subset k _ hi)) hret
    · intro i hi
      rw [hkids, List.drop_length] at hi
      simp at hi
  · -- k ≠ n
    by_cases hkpos : 0 < k
    · -- partial success: the first k ids are marked, the rest are not
      have hrec : ((flushEvents cfg now st (Except.ok k)).1).record =
          (st.bufferIds.take k).foldl (fun r i => addProcessedId cfg now r i)
            st.record := by
        simp [flushEvents, hbne, hcase, hkpos]
      have htlen : (st.bufferIds.take k).length = k := by
        rw [List.length_take]
        omega
      have htnodup : ((st.bufferIds.take k).map pyStr).Nodup := by
        rw [List.map_take]
        exact hnodup.sublist (List.take_sublist k _)
      have htfresh : ∀ i ∈ st.bufferIds.take k,
          trackFind st.record.idTracking (pyStr i) = none :=
        fun i hi => hfresh i (List.take_subset k _ hi)
      have htcap : st.record.idTracking.length +
          (st.bufferIds.take k).length ≤ cfg.maxIds := by omega
      obtain ⟨_, B, C, _⟩ := markFold_spec cfg now hret (st.bufferIds.take k)
        st.record htcap htfresh htnodup
      have hdisj : ∀ i ∈ st.bufferIds.drop k,
          pyStr i ∉ (st.bufferIds.take k).map pyStr := by
        intro i hi hmem
        have hsplit := hnodup
        rw [← List.take_append_drop k (st.bufferIds.map pyStr)] at hsplit
        obtain ⟨_, _, hdj⟩ := List.nodup_append.mp hsplit
        have hmem1 : pyStr i ∈ (st.bufferIds.map pyStr).take k := by
          rw [← List.map_take]
          exact hmem
        have hmem2 : pyStr i ∈ (st.bufferIds.map pyStr).drop k := by
          rw [← List.map_drop]
          exact List.mem_map_of_mem pyStr hi
        exact hdj hmem1 hmem2
      constructor
      · intro i hi
        rw [hrec]
        exact isProcessed_of_find_now cfg now _ i (B i hi) hret
      · intro i hi
        rw [hrec]
        exact isProcessed_of_find_none cfg now _ i
          (C (pyStr i) (hfresh i (List.drop_subset k _ hi)) (hdisj i hi))
    · -- total failure: nothing is marked, the record is unchanged
      have hk0 : k = 0 := by omega
      have hrec : ((flushEvents cfg now st (Except.ok k)).1).record =
          st.record := by
        have hne0 : ¬ (0 = st.eventBuffer.length) := fun h => hcase (by omega)
        simp [flushEvents, hbne, hk0, hne0]
      constructor
      · intro i hi
        rw [hk0, List.take_zero] at hi
        simp at hi
      · intro i hi
        rw [hrec]
        exact isProcessed_of_find_none cfg now _ i
          (hfresh i (List.drop_subset k _ hi))

/-- C2 witness: five buffered events with fresh ids, of which the sink
acknowledges the first three; those three answer processed, the other two
answer not-processed. -/
theorem c2_flush_ack_marking_witness :
    ((0 : Int) < (2592000 : Int) ∧
      ([10, 20, 30, 40, 50] : List Nat).length =
        ([PyVal.pvInt 1, PyVal.pvInt 2, PyVal.pvInt 3, PyVal.pvInt 4,
          PyVal.pvInt 5] : List PyVal).length ∧
      ([10, 20, 30, 40, 50] : List Nat) ≠ [] ∧
      3 ≤ ([PyVal.pvInt 1, PyVal.pvInt 2, PyVal.pvInt 3, PyVal.pvInt 4,
          PyVal.pvInt 5] : List PyVal).length ∧
      (([PyVal.pvInt 1, PyVal.pvInt 2, PyVal.pvInt 3, PyVal.pvInt 4,
          PyVal.pvInt 5] : List PyVal).map pyStr).Nodup ∧
      (∀ i ∈ ([PyVal.pvInt 1, PyVal.pvInt 2, PyVal.pvInt 3, PyVal.pvInt 4,
          PyVal.pvInt 5] : List PyVal),
        trackFind defaultRecord.idTracking (pyStr i) = none) ∧
      defaultRecord.idTracking.length + 3 ≤ 100000) ∧
    ((∀ i ∈ ([PyVal.pvInt 1, PyVal.pvInt 2, PyVal.pvInt 3, PyVal.pvInt 4,
          PyVal.pvInt 5] : List PyVal).take 3,
        isProcessed ⟨100000, 2592000, 100⟩ 7000
          ((flushEvents ⟨100000, 2592000, 100⟩ 7000
            (⟨[10, 20, 30, 40, 50],
              [PyVal.pvInt 1, PyVal.pvInt 2, PyVal.pvInt 3, PyVal.pvInt 4,
                PyVal.pvInt 5], defaultRecord, 0⟩ : FeedState Nat)
            (Except.ok 3)).1).record i = true) ∧
      (∀ i ∈ ([PyVal.pvInt 1, PyVal.pvInt 2, PyVal.pvInt 3, PyVal.pvInt 4,
          PyVal.pvInt 5] : List PyVal).drop 3,
        isProcessed ⟨100000, 2592000, 100⟩ 7000
          ((flushEvents ⟨100000, 2592000, 100⟩ 7000
            (⟨[10, 20, 30, 40, 50],
              [PyVal.pvInt 1, PyVal.pvInt 2, PyVal.pvInt 3, PyVal.pvInt 4,
                PyVal.pvInt 5], defaultRecord, 0⟩ : FeedState Nat)
            (Except.ok 3)).1).record i = false)) :=
  ⟨⟨by decide, by decide, by decide, by decide, by decide, by decide,
      by decide⟩,
    c2_flush_ack_marking ⟨100000, 2592000, 100⟩ 7000
      (⟨[10, 20, 30, 40, 50],
        [PyVal.pvInt 1, PyVal.pvInt 2, PyVal.pvInt 3, PyVal.pvInt 4,
          PyVal.pvInt 5], defaultRecord, 0⟩ : FeedState Nat) 3
      (by decide) (by decide) (by decide) (by decide) (by decide)
      (by decide) (by decide)⟩

/-- C6 counterexample: with previous stored ids {A, B, C} and current
universe {B, C, D}, the run emits exactly one deletion event (for A) — but
the stored id set afterwards still contains A, so it does not equal the new
universe {B, C, D} as the claim states: `mark_processed` only adds ids and
nothing removes A before retention expiry. -/
theorem c6_counterexample :
    diffRun.1 = ["A"] ∧
    "A" ∈ getProcessedIds cfgDiff 60 diffRun.2 ∧
    "A" ∉ (["B", "C", "D"] : List String) := by
  refine ⟨by rfl, by decide, by decide⟩

/-- C6 amended: previous id set {A, B, C} and current full-scan set
{B, C, D} produce exactly one synthetic deletion event, for A, and the
stored id set after the run is the union {A, B, C, D} — the deleted id A
remains stored (until retention expiry or size eviction), it is not
removed. -/
theorem c6_deletion_diff_union :
    diffRun.1 = ["A"] ∧
    getProcessedIds cfgDiff 60 diffRun.2 = ["A", "B", "C", "D"] := by
  constructor <;> rfl

/-- C7: every flush attempt — full success, partial success, total failure,
or an exception raised during the send — returns with both the event buffer
and the buffered-id list empty; the model performs a single delivery
attempt, so a failed delivery is never retried from this buffer.  (The
hypothesis is the reachable-state invariant that ids are only buffered
alongside events.) -/
theorem c7_buffers_cleared {ε : Type} (cfg : CheckpointConfig) (now : Int)
    (st : FeedState ε) (outcome : Except Unit Nat)
    (hinv : st.eventBuffer = [] → st.bufferIds = []) :
    (flushEvents cfg now st outcome).1.eventBuffer = [] ∧
    (flushEvents cfg now st outcome).1.bufferIds = [] := by
  by_cases hbe : st.eventBuffer.isEmpty = true
  · have hb : st.eventBuffer = [] := List.isEmpty_iff.mp hbe
    have hred : (flushEvents cfg now st outcome).1 = st := by
      simp [flushEvents, hbe]
    rw [hred]
    exact ⟨hb, hinv hb⟩
  · have hbe' : st.eventBuffer.isEmpty = false := by
      cases h : st.eventBuffer.isEmpty
      · rfl
      · exact absurd h hbe
    cases outcome with
    | error e => simp [flushEvents, hbe']
    | ok k =>
      by_cases h1 : k = st.eventBuffer.length
      · simp [flushEvents, hbe', h1]
      · by_cases h2 : 0 < k
        · simp [flushEvents, hbe', h1, h2]
        · simp [flushEvents, hbe', h1, h2]

/-- C7 witness: a buffer of one event whose delivery raises; both buffers
come back empty. -/
theorem c7_buffers_cleared_witness :
    ((⟨[0], [PyVal.pvInt 7], defaultRecord, 0⟩ : FeedState Nat).eventBuffer =
        [] →
      (⟨[0], [PyVal.pvInt 7], defaultRecord, 0⟩ : FeedState Nat).bufferIds =
        []) ∧
    ((flushEvents ⟨100000, 2592000, 100⟩ 0
      (⟨[0], [PyVal.pvInt 7], defaultRecord, 0⟩ : FeedState Nat)
      (Except.error ())).1.eventBuffer = [] ∧
    (flushEvents ⟨100000, 2592000, 100⟩ 0
      (⟨[0], [PyVal.pvInt 7], defaultRecord, 0⟩ : FeedState Nat)
      (Except.error ())).1.bufferIds = []) :=
  ⟨fun h => absurd h (by decide),
    c7_buffers_cleared ⟨100000, 2592000, 100⟩ 0
      (⟨[0], [PyVal.pvInt 7], defaultRecord, 0⟩ : FeedState Nat)
      (Except.error ()) (fun h => absurd h (by decide))⟩

/-- C9: with the delay inside its [floor, ceiling] band and the success
streak at zero, the speedup-threshold number of consecutive successful
flushes strictly decreases the inter-flush delay unless it is already at the
floor, never below the floor; and a single overload signal (HTTP 429/503 or
a request timeout) strictly increases it unless it is already at the
ceiling, never above the ceiling, and resets the consecutive-success
counter to zero. -/
theorem c9_adaptive_pacing (s : SinkState)
    (hc : s.consecutiveSuccesses = 0)
    (hlo : minBatchDelay ≤ s.batchDelay)
    (_hhi : s.batchDelay ≤ maxBatchDelay) :
    (minBatchDelay ≤ (onFlushSuccess^[speedupThreshold] s).batchDelay ∧
     (minBatchDelay < s.batchDelay →
       (onFlushSuccess^[speedupThreshold] s).batchDelay < s.batchDelay) ∧
     (s.batchDelay = minBatchDelay →
       (onFlushSuccess^[speedupThreshold] s).batchDelay = s.batchDelay)) ∧
    ((onOverloadStatus s).batchDelay ≤ maxBatchDelay ∧
     (s.batchDelay < maxBatchDelay →
       s.batchDelay < (onOverloadStatus s).batchDelay) ∧
     (s.batchDelay = maxBatchDelay →
       (onOverloadStatus s).batchDelay = s.batchDelay) ∧
     (onOverloadStatus s).consecutiveSuccesses = 0) ∧
    ((onTimeout s).batchDelay ≤ maxBatchDelay ∧
     (s.batchDelay < maxBatchDelay →
       s.batchDelay < (onTimeout s).batchDelay) ∧
     (s.batchDelay = maxBatchDelay →
       (onTimeout s).batchDelay = s.batchDelay) ∧
     (onTimeout s).consecutiveSuccesses = 0) := by
  have hdpos : (0 : ℚ) < s.batchDelay :=
    lt_of_lt_of_le (by norm_num [minBatchDelay]) hlo
  have h10 : onFlushSuccess^[speedupThreshold] s =
      onFlushSuccess { s with consecutiveSuccesses := 9 } := by
    have h9 := onFlushSuccess_iterate s hc 9 (by norm_num [speedupThreshold])
    show onFlushSuccess^[10] s = _
    rw [show (10 : Nat) = 9 + 1 from rfl, Function.iterate_succ_apply', h9]
  have hsval : (onFlushSuccess^[speedupThreshold] s).batchDelay =
      max minBatchDelay (s.batchDelay * speedupFactor) := by
    rw [h10]
    unfold onFlushSuccess
    norm_num [speedupThreshold]
  have hover : (onOverloadStatus s).batchDelay =
      min maxBatchDelay (s.batchDelay * throttleFactor) := rfl
  have htime : (onTimeout s).batchDelay =
      min maxBatchDelay (s.batchDelay * throttleFactor) := rfl
  have hgrow : ∀ h : s.batchDelay < maxBatchDelay,
      s.batchDelay < min maxBatchDelay (s.batchDelay * throttleFactor) :=
    fun h => lt_min h
      ((lt_mul_iff_one_lt_right hdpos).mpr (by norm_num [throttleFactor]))
  have hceil : s.batchDelay = maxBatchDelay →
      min maxBatchDelay (s.batchDelay * throttleFactor) = s.batchDelay := by
    intro h
    rw [h]
    exact min_eq_left
      (le_mul_of_one_le_right (by norm_num [maxBatchDelay])
        (by norm_num [throttleFactor]))
  refine ⟨⟨?_, ?_, ?_⟩, ⟨?_, ?_, ?_, rfl⟩, ⟨?_, ?_, ?_, rfl⟩⟩
  · rw [hsval]
    exact le_max_left _ _
  · intro hlt
    rw [hsval]
    exact max_lt hlt
      (mul_lt_of_lt_one_right hdpos (by norm_num [speedupFactor]))
  · intro heq
    rw [hsval, heq]
    exact max_eq_left
      (mul_le_of_le_one_right (by norm_num [minBatchDelay])
        (by norm_num [speedupFactor]))
  · rw [hover]
    exact min_le_left _ _
  · intro h
    rw [hover]
    exact hgrow h
  · intro h
    rw [hover]
    exact hceil h
  · rw [htime]
    exact min_le_left _ _
  · intro h
    rw [htime]
    exact hgrow h
  · intro h
    rw [htime]
    exact hceil h

/-- C9 witness: the default production state (5ms delay, zero streak) sits
inside the band, so the theorem applies to it. -/
theorem c9_adaptive_pacing_witness :
    (((⟨5 / 1000, 0, 0, 0⟩ : SinkState).consecutiveSuccesses = 0 ∧
      minBatchDelay ≤ (⟨5 / 1000, 0, 0, 0⟩ : SinkState).batchDelay ∧
      (⟨5 / 1000, 0, 0, 0⟩ : SinkState).batchDelay ≤ maxBatchDelay) ∧
     (minBatchDelay ≤
        (onFlushSuccess^[speedupThreshold]
          (⟨5 / 1000, 0, 0, 0⟩ : SinkState)).batchDelay ∧
      (minBatchDelay < (⟨5 / 1000, 0, 0, 0⟩ : SinkState).batchDelay →
        (onFlushSuccess^[speedupThreshold]
          (⟨5 / 1000, 0, 0, 0⟩ : SinkState)).batchDelay <
          (⟨5 / 1000, 0, 0, 0⟩ : SinkState).batchDelay) ∧
      ((⟨5 / 1000, 0, 0, 0⟩ : SinkState).batchDelay = minBatchDelay →
        (onFlushSuccess^[speedupThreshold]
          (⟨5 / 1000, 0, 0, 0⟩ : SinkState)).batchDelay =
          (⟨5 / 1000, 0, 0, 0⟩ : SinkState).batchDelay)) ∧
     ((onOverloadStatus (⟨5 / 1000, 0, 0, 0⟩ : SinkState)).batchDelay ≤
        maxBatchDelay ∧
      ((⟨5 / 1000, 0, 0, 0⟩ : SinkState).batchDelay < maxBatchDelay →
        (⟨5 / 1000, 0, 0, 0⟩ : SinkState).batchDelay <
          (onOverloadStatus (⟨5 / 1000, 0, 0, 0⟩ : SinkState)).batchDelay) ∧
      ((⟨5 / 1000, 0, 0, 0⟩ : SinkState).batchDelay = maxBatchDelay →
        (onOverloadStatus (⟨5 / 1000, 0, 0, 0⟩ : SinkState)).batchDelay =
          (⟨5 / 1000, 0, 0, 0⟩ : SinkState).batchDelay) ∧
      (onOverloadStatus (⟨5 / 1000, 0, 0, 0⟩ : SinkState)).consecutiveSuccesses =
        0) ∧
     ((onTimeout (⟨5 / 1000, 0, 0, 0⟩ : SinkState)).batchDelay ≤
        maxBatchDelay ∧
      ((⟨5 / 1000, 0, 0, 0⟩ : SinkState).batchDelay < maxBatchDelay →
        (⟨5 / 1000, 0, 0, 0⟩ : SinkState).batchDelay <
          (onTimeout (⟨5 / 1000, 0, 0, 0⟩ : SinkState)).batchDelay) ∧
      ((⟨5 / 1000, 0, 0, 0⟩ : SinkState).batchDelay = maxBatchDelay →
        (onTimeout (⟨5 / 1000, 0, 0, 0⟩ : SinkState)).batchDelay =
          (⟨5 / 1000, 0, 0, 0⟩ : SinkState).batchDelay) ∧
      (onTimeout (⟨5 / 1000, 0, 0, 0⟩ : SinkState)).consecutiveSuccesses = 0)) :=
  ⟨⟨rfl, by norm_num [minBatchDelay], by norm_num [maxBatchDelay]⟩,
    c9_adaptive_pacing (⟨5 / 1000, 0, 0, 0⟩ : SinkState) rfl
      (by norm_num [minBatchDelay]) (by norm_num [maxBatchDelay])⟩

end Collector
